import Mathlib

/-!
Verification of the DataTable and InputField components
(src/Frontend/src/components). The TypeScript source is shallowly
embedded: records are association lists of field values, the JavaScript
runtime pieces (truthiness, `Set`, `Array.prototype.sort`,
`localeCompare`) are modelled explicitly, and the event handlers become
pure state-transition functions returning both the new component state
and the payload passed to the owner callback.
-/

namespace Uzence

/-- A JavaScript field value as it occurs in this code base.
`vNull` stands for both `null` and `undefined` (the two are treated
identically by every branch of the source). -/
inductive Value where
  | vNull : Value
  | vStr : String → Value
  | vNum : Int → Value
  | vBool : Bool → Value
deriving DecidableEq, Repr

/-- `null`-or-`undefined` test, matching the checks
`aValue === null || aValue === undefined` in `sortedData`. -/
def Value.isNullish : Value → Bool
  | .vNull => true
  | _ => false

/-- JavaScript `String(v)` coercion for the values of this model
(the fallback branch of the comparator stringifies non-string,
non-number values). -/
def Value.toJsString : Value → String
  | .vNull => "null"
  | .vStr s => s
  | .vNum n => toString n
  | .vBool b => if b then "true" else "false"

/-- A record (one row's data object): a mapping from field names to
values, modelled as an association list. -/
def Record : Type := List (String × Value)

instance : DecidableEq Record :=
  inferInstanceAs (DecidableEq (List (String × Value)))

/-- Property access `record[name]`: a missing attribute reads as
`undefined`, which the model folds into `vNull`. -/
def getField (r : Record) (name : String) : Value :=
  match r.lookup name with
  | some v => v
  | none => .vNull

/-- Column descriptor (`Column<T>` in DataTable.tsx); the presentational
fields (`render`, `width`, `align`) play no role in the verified logic
and are omitted. -/
structure Column where
  key : String
  title : String
  dataIndex : String
  sortable : Bool
deriving DecidableEq, Repr

/-- `SortDirection` minus the `null` case, which the model keeps in the
`Option` of `SortState.direction`. -/
inductive SortDirection where
  | asc : SortDirection
  | desc : SortDirection
deriving DecidableEq, Repr

/-- The `SortState` of DataTable.tsx: `key : string | null`,
`direction : 'asc' | 'desc' | null`. -/
structure SortState where
  key : Option String
  direction : Option SortDirection
deriving DecidableEq, Repr

/-- Model of `String.prototype.localeCompare` (default locale):
a three-way comparison returning -1, 0 or 1, ordered by Lean's
lexicographic string order. -/
def localeCompare (a b : String) : Int :=
  if a < b then -1 else if b < a then 1 else 0

/-- The comparator passed to `[...data].sort` in `sortedData`
(DataTable.tsx lines 66-88), for an active direction `dir` on the
column field `dataIndex`. -/
def compareRows (dataIndex : String) (dir : SortDirection) (a b : Record) : Int :=
  let aValue := getField a dataIndex
  let bValue := getField b dataIndex
  if aValue.isNullish then 1
  else if bValue.isNullish then -1
  else
    match aValue, bValue with
    | .vStr sa, .vStr sb =>
        let comparison := localeCompare sa sb
        if dir = .asc then comparison else -comparison
    | .vNum na, .vNum nb =>
        let comparison := na - nb
        if dir = .asc then comparison else -comparison
    | _, _ =>
        let comparison := localeCompare aValue.toJsString bValue.toJsString
        if dir = .asc then comparison else -comparison

/-- Stable insertion of `a` into `l` guided by a JavaScript-style
three-way comparator: `a` is placed before the first element `b` with
`cmp a b <= 0`. -/
def insertCmp (cmp : α → α → Int) (a : α) : List α → List α
  | [] => [a]
  | b :: l => if cmp a b ≤ 0 then a :: b :: l else b :: insertCmp cmp a l

/-- Model of `Array.prototype.sort(cmp)` as a stable comparison sort
(the ECMAScript specification mandates a stable sort; for a consistent
comparator every stable sort computes the same list). -/
def jsSort (cmp : α → α → Int) : List α → List α
  | [] => []
  | a :: l => insertCmp cmp a (jsSort cmp l)

/-- The `sortedData` memo of DataTable.tsx (lines 58-89).  The guard
`!sortState.key` is JavaScript truthiness: it fires both when the key is
`null` and when it is the empty string. -/
def sortedData (columns : List Column) (s : SortState) (data : List Record) :
    List Record :=
  match s.key, s.direction with
  | some key, some dir =>
      if key = "" then data
      else
        match columns.find? (fun col => col.key == key) with
        | none => data
        | some column => jsSort (compareRows column.dataIndex dir) data
  | _, _ => data

/-- `handleSort` (DataTable.tsx lines 91-105): the three-state cycle of
the sort state on a header activation.  A missing or non-sortable column
leaves the state unchanged. -/
def handleSort (columns : List Column) (columnKey : String) (prev : SortState) :
    SortState :=
  match columns.find? (fun col => col.key == columnKey) with
  | none => prev
  | some column =>
      if column.sortable = false then prev
      else if prev.key = some columnKey then
        match prev.direction with
        | some .asc => ⟨some columnKey, some .desc⟩
        | some .desc => ⟨none, none⟩
        | none => ⟨some columnKey, some .asc⟩
      else ⟨some columnKey, some .asc⟩

/-- A row identity as stored in the `selectedRows` set: either a field
value (`string | number` in practice) or the positional-index fallback. -/
inductive RKey where
  | ofValue : Value → RKey
  | ofIndex : Nat → RKey
deriving DecidableEq, Repr

/-- The `rowKey` prop: an attribute name (`keyof T`, default `'id'`) or
a derivation function. -/
inductive RowKeyProp where
  | attr : String → RowKeyProp
  | fn : (Record → RKey) → RowKeyProp

/-- `getRowKey` (DataTable.tsx lines 50-55): apply the function form, or
read the attribute and fall back to the index when it is
null-or-undefined (`record[rowKey] ?? index`). -/
def getRowKey (rk : RowKeyProp) (record : Record) (index : Nat) : RKey :=
  match rk with
  | .fn f => f record
  | .attr name =>
      match getField record name with
      | .vNull => .ofIndex index
      | v => .ofValue v

/-- `l.map((item, index) => getRowKey(item, index))` started at
position `n`. -/
def rowKeysFrom (rk : RowKeyProp) : List Record → Nat → List RKey
  | [], _ => []
  | r :: l, n => getRowKey rk r n :: rowKeysFrom rk l (n + 1)

/-- The keys of all rows of `l`, in display order. -/
def rowKeys (rk : RowKeyProp) (l : List Record) : List RKey :=
  rowKeysFrom rk l 0

/-- `handleSelectAll` (DataTable.tsx lines 107-116).  The JavaScript
`Set` becomes a `Finset`; the result pairs the new `selectedRows` state
with the list handed to `onRowSelect`. -/
def handleSelectAll (rk : RowKeyProp) (selectedRows : Finset RKey)
    (sorted : List Record) : Finset RKey × List Record :=
  if selectedRows.card = sorted.length then (∅, [])
  else ((rowKeys rk sorted).toFinset, sorted)

/-- `l.filter((item, idx) => p(item, idx))` started at position `n`. -/
def filterIdxFrom (p : Record → Nat → Bool) : List Record → Nat → List Record
  | [], _ => []
  | r :: l, n =>
      if p r n then r :: filterIdxFrom p l (n + 1) else filterIdxFrom p l (n + 1)

/-- `handleRowSelect` (DataTable.tsx lines 118-134): toggle the clicked
row's key in the selection set, then report the rows of `sortedData`
whose key is in the new set; the result pairs the new `selectedRows`
state with the list handed to `onRowSelect`. -/
def handleRowSelect (rk : RowKeyProp) (selectedRows : Finset RKey)
    (sorted : List Record) (record : Record) (index : Nat) :
    Finset RKey × List Record :=
  let key := getRowKey rk record index
  let newSelectedRows :=
    if key ∈ selectedRows then selectedRows.erase key
    else insert key selectedRows
  (newSelectedRows,
    filterIdxFrom (fun item idx => decide (getRowKey rk item idx ∈ newSelectedRows))
      sorted 0)

/-- `handleRowClick` (DataTable.tsx lines 136-142).
`clickOnCheckbox` models `event.target.closest('input[type=checkbox]')`
being non-null; the result is the `(record, index)` argument pair passed
to `onRowClick`, or `none` when the callback is not invoked. -/
def handleRowClick (clickOnCheckbox : Bool) (record : Record) (index : Nat) :
    Option (Record × Nat) :=
  if clickOnCheckbox then none else some (record, index)

/-- The three mutually exclusive top-level views the component can
return (DataTable.tsx lines 184-313). -/
inductive GridView where
  | loadingView : GridView
  | emptyView : String → GridView
  | tableView : List Record → GridView
deriving DecidableEq

/-- The return value of the `DataTable` function component:
`loading` wins, then the empty check `!data.length`, then the populated
table over `sortedData`.  The `emptyMessage` prop defaults to
`'No data available'` when absent. -/
def renderDataTable (loading : Bool) (emptyMessage : Option String)
    (columns : List Column) (s : SortState) (data : List Record) : GridView :=
  if loading then .loadingView
  else if data.length = 0 then .emptyView (emptyMessage.getD "No data available")
  else .tableView (sortedData columns s data)

/-! ### Memory model for the sort (frame property)

`sortedData` evaluates `[...data].sort(cmp)`.  `Array.prototype.sort`
mutates its receiver, so the embedding makes the arrays heap-allocated:
the spread allocates a fresh array and the sort overwrites the array it
is called on, returning a reference to it. -/

/-- A heap of arrays; a reference is an index into the allocation
list. -/
structure Heap where
  arrays : List (List Record)

/-- Read the array behind reference `i`. -/
def readArr (h : Heap) (i : Nat) : List Record :=
  h.arrays[i]?.getD []

/-- Allocate a fresh array holding `l`, returning its reference. -/
def allocArr (h : Heap) (l : List Record) : Heap × Nat :=
  (⟨h.arrays ++ [l]⟩, h.arrays.length)

/-- Overwrite the array behind reference `i`. -/
def writeArr (h : Heap) (i : Nat) (l : List Record) : Heap :=
  ⟨h.arrays.set i l⟩

/-- The spread `[...a]`: allocate a shallow copy of the array behind
`i`. -/
def spreadCopy (h : Heap) (i : Nat) : Heap × Nat :=
  allocArr h (readArr h i)

/-- `a.sort(cmp)`: sort the receiver in place and return (a reference
to) it. -/
def sortInPlace (cmp : Record → Record → Int) (h : Heap) (i : Nat) : Heap × Nat :=
  (writeArr h i (jsSort cmp (readArr h i)), i)

/-- The heap-level reading of the `[...data].sort(comparator)` step of
`sortedData`: copy the caller's array, then sort the copy in place. -/
def sortedDataMem (dataIndex : String) (dir : SortDirection) (h : Heap)
    (dataRef : Nat) : Heap × Nat :=
  let copied := spreadCopy h dataRef
  sortInPlace (compareRows dataIndex dir) copied.1 copied.2

/-! ### InputField model -/

/-- The `type` prop of InputField.tsx. -/
inductive InputType where
  | text : InputType
  | email : InputType
  | password : InputType
  | number : InputType
  | tel : InputType
  | url : InputType
deriving DecidableEq, Repr

/-- The InputField props that take part in the verified behavior
(InputField.tsx lines 26-43); presentational props are omitted. -/
structure InputFieldProps where
  value : Option String
  showClearButton : Bool
  type : InputType
  loading : Bool
  disabled : Bool

/-- The component-local state of InputField.tsx (lines 44-45). -/
structure InputFieldState where
  showPassword : Bool
  inputValue : String
deriving DecidableEq, Repr

/-- The state at mount: `useState(false)` and `useState(value || '')`
(for a string, `value || ''` and `value ?? ''` coincide: the only falsy
string is the empty one). -/
def initState (p : InputFieldProps) : InputFieldState :=
  { showPassword := false, inputValue := p.value.getD "" }

/-- `type === 'password'`. -/
def isPassword (p : InputFieldProps) : Bool :=
  p.type == .password

/-- The `type` attribute rendered on the `input` element
(InputField.tsx line 49). -/
def actualType (p : InputFieldProps) (st : InputFieldState) : InputType :=
  if isPassword p then (if st.showPassword then .text else .password) else p.type

/-- The value shown in the input:
`value !== undefined ? value : inputValue` (line 167). -/
def displayedValue (p : InputFieldProps) (st : InputFieldState) : String :=
  match p.value with
  | some v => v
  | none => st.inputValue

/-- The guard of the icons container (line 184):
`(showClearButton && inputValue) || isPassword || loading`. -/
def iconsContainerVisible (p : InputFieldProps) (st : InputFieldState) : Bool :=
  (p.showClearButton && st.inputValue != "") || isPassword p || p.loading

/-- The clear affordance is in the output exactly when the icons
container renders and its own guard
`showClearButton && inputValue && !loading` (line 190) holds. -/
def clearButtonVisible (p : InputFieldProps) (st : InputFieldState) : Bool :=
  iconsContainerVisible p st && (p.showClearButton && st.inputValue != "" && !p.loading)

/-- The password reveal toggle is in the output exactly when the icons
container renders and its own guard `isPassword && !loading` (line 206)
holds. -/
def passwordToggleVisible (p : InputFieldProps) (st : InputFieldState) : Bool :=
  iconsContainerVisible p st && (isPassword p && !p.loading)

/-- `handleChange` (lines 51-55): store the new value and report it to
the owner; the second component is the value carried by the change event
passed to `onChange`. -/
def handleChange (st : InputFieldState) (newValue : String) :
    InputFieldState × String :=
  ({ st with inputValue := newValue }, newValue)

/-- `handleClear` (lines 57-65): store the empty string and report a
synthetic change event whose target value is the empty string through
the same `onChange` callback. -/
def handleClear (st : InputFieldState) : InputFieldState × String :=
  ({ st with inputValue := "" }, "")

/-- `togglePasswordVisibility` (lines 67-69). -/
def togglePasswordVisibility (st : InputFieldState) : InputFieldState :=
  { st with showPassword := !st.showPassword }

/-! ### Helper lemmas about the sort model -/

theorem mem_insertCmp {cmp : α → α → Int} {a x : α} {l : List α} :
    x ∈ insertCmp cmp a l ↔ x = a ∨ x ∈ l := by
  induction l with
  | nil => simp [insertCmp]
  | cons b l ih =>
      by_cases h : cmp a b ≤ 0
      · simp [insertCmp, h]
      · simp only [insertCmp, if_neg h, List.mem_cons, ih]
        tauto

theorem perm_insertCmp (cmp : α → α → Int) (a : α) (l : List α) :
    (insertCmp cmp a l).Perm (a :: l) := by
  induction l with
  | nil => simp [insertCmp]
  | cons b l ih =>
      by_cases h : cmp a b ≤ 0
      · simp [insertCmp, h]
      · rw [insertCmp, if_neg h]
        exact (ih.cons b).trans (List.Perm.swap a b l)

theorem perm_jsSort (cmp : α → α → Int) (l : List α) :
    (jsSort cmp l).Perm l := by
  induction l with
  | nil => simp [jsSort]
  | cons a l ih => exact (perm_insertCmp cmp a (jsSort cmp l)).trans (ih.cons a)

theorem pairwise_insertCmp {P : α → Prop} {R : α → α → Prop} {cmp : α → α → Int}
    (hRtrans : ∀ x y z, R x y → R y z → R x z)
    (h1 : ∀ x y, P x → P y → cmp x y ≤ 0 → R x y)
    (h2 : ∀ x y, P x → P y → 0 < cmp x y → R y x)
    {a : α} {l : List α} (ha : P a) (hl : ∀ x ∈ l, P x)
    (hp : l.Pairwise R) : (insertCmp cmp a l).Pairwise R := by
  induction l with
  | nil => simp [insertCmp]
  | cons b l ih =>
      have hb : P b := hl b (by simp)
      have hl' : ∀ x ∈ l, P x := fun x hx => hl x (by simp [hx])
      rcases List.pairwise_cons.mp hp with ⟨hbl, hpl⟩
      by_cases h : cmp a b ≤ 0
      · rw [insertCmp, if_pos h]
        refine List.pairwise_cons.mpr ⟨?_, hp⟩
        intro x hx
        rcases List.mem_cons.mp hx with rfl | hx
        · exact h1 a x ha hb h
        · exact hRtrans a b x (h1 a b ha hb h) (hbl x hx)
      · rw [insertCmp, if_neg h]
        refine List.pairwise_cons.mpr ⟨?_, ih hl' hpl⟩
        intro x hx
        rcases mem_insertCmp.mp hx with rfl | hx
        · exact h2 x b ha hb (by omega)
        · exact hbl x hx

theorem pairwise_jsSort {P : α → Prop} {R : α → α → Prop} {cmp : α → α → Int}
    (hRtrans : ∀ x y z, R x y → R y z → R x z)
    (h1 : ∀ x y, P x → P y → cmp x y ≤ 0 → R x y)
    (h2 : ∀ x y, P x → P y → 0 < cmp x y → R y x)
    {l : List α} (hl : ∀ x ∈ l, P x) : (jsSort cmp l).Pairwise R := by
  induction l with
  | nil => simp [jsSort]
  | cons a l ih =>
      have hl' : ∀ x ∈ l, P x := fun x hx => hl x (by simp [hx])
      refine pairwise_insertCmp hRtrans h1 h2 (hl a (by simp)) ?_ (ih hl')
      intro x hx
      exact hl' x ((perm_jsSort cmp l).mem_iff.mp hx)

theorem localeCompare_le_iff {a b : String} : localeCompare a b ≤ 0 ↔ a ≤ b := by
  rcases lt_trichotomy a b with h | h | h
  · simp [localeCompare, h, le_of_lt h]
  · simp [localeCompare, h, lt_irrefl]
  · simp [localeCompare, h, not_lt_of_lt h, not_le_of_lt h]

theorem localeCompare_nonneg_iff {a b : String} : 0 ≤ localeCompare a b ↔ b ≤ a := by
  rcases lt_trichotomy a b with h | h | h
  · simp [localeCompare, h, not_le_of_lt h]
  · simp [localeCompare, h, lt_irrefl]
  · simp [localeCompare, h, not_lt_of_lt h, le_of_lt h]

theorem rowKeysFrom_length (rk : RowKeyProp) :
    ∀ (l : List Record) (n : Nat), (rowKeysFrom rk l n).length = l.length := by
  intro l
  induction l with
  | nil => intro n; rfl
  | cons r l ih => intro n; simp [rowKeysFrom, ih]

theorem getIdx_mem_rowKeysFrom (rk : RowKeyProp) :
    ∀ (l : List Record) (n i : Nat) (r : Record), l[i]? = some r →
      getRowKey rk r (n + i) ∈ rowKeysFrom rk l n := by
  intro l
  induction l with
  | nil => intro n i r h; simp at h
  | cons r0 l ih =>
      intro n i r h
      cases i with
      | zero =>
          simp at h
          subst h
          simp [rowKeysFrom]
      | succ i =>
          simp at h
          have hm := ih (n + 1) i r h
          have heq : n + 1 + i = n + (i + 1) := by omega
          rw [heq] at hm
          exact List.mem_cons_of_mem _ hm

theorem filterIdxFrom_sublist (p : Record → Nat → Bool) :
    ∀ (l : List Record) (n : Nat), (filterIdxFrom p l n).Sublist l := by
  intro l
  induction l with
  | nil => intro n; simp [filterIdxFrom]
  | cons r l ih =>
      intro n
      by_cases h : p r n
      · rw [filterIdxFrom, if_pos h]
        exact (ih (n + 1)).cons₂ r
      · rw [filterIdxFrom, if_neg h]
        exact (ih (n + 1)).cons r

theorem filterIdxFrom_eq_nil {p : Record → Nat → Bool} :
    ∀ {l : List Record} {n : Nat},
      (∀ i r, l[i]? = some r → p r (n + i) = false) →
      filterIdxFrom p l n = [] := by
  intro l
  induction l with
  | nil => intro n _; rfl
  | cons r0 l ih =>
      intro n h
      have h0 : p r0 n = false := by
        have := h 0 r0 (by simp)
        simpa using this
      rw [filterIdxFrom, if_neg (by simp [h0])]
      refine ih ?_
      intro i r hg
      have := h (i + 1) r (by simpa using hg)
      have heq : n + (i + 1) = n + 1 + i := by omega
      rw [heq] at this
      exact this

theorem mem_filterIdxFrom_of_getIdx {p : Record → Nat → Bool} :
    ∀ {l : List Record} {n i : Nat} {r : Record}, l[i]? = some r →
      p r (n + i) = true → r ∈ filterIdxFrom p l n := by
  intro l
  induction l with
  | nil => intro n i r h _; simp at h
  | cons r0 l ih =>
      intro n i r h hp
      cases i with
      | zero =>
          simp at h
          subst h
          rw [filterIdxFrom, if_pos (by simpa using hp)]
          exact List.mem_cons_self _ _
      | succ i =>
          simp at h
          have hp' : p r (n + 1 + i) = true := by
            have heq : n + 1 + i = n + (i + 1) := by omega
            rw [heq]; exact hp
          have hm := ih h hp'
          by_cases h0 : p r0 n
          · rw [filterIdxFrom, if_pos h0]
            exact List.mem_cons_of_mem _ hm
          · rw [filterIdxFrom, if_neg h0]
            exact hm

theorem exists_of_mem_filterIdxFrom {p : Record → Nat → Bool} :
    ∀ {l : List Record} {n : Nat} {r : Record}, r ∈ filterIdxFrom p l n →
      ∃ i, l[i]? = some r ∧ p r (n + i) = true := by
  intro l
  induction l with
  | nil => intro n r h; simp [filterIdxFrom] at h
  | cons r0 l ih =>
      intro n r h
      by_cases h0 : p r0 n
      · rw [filterIdxFrom, if_pos h0] at h
        rcases List.mem_cons.mp h with rfl | h
        · exact ⟨0, by simp, by simpa using h0⟩
        · rcases ih h with ⟨i, hg, hp⟩
          refine ⟨i + 1, by simpa using hg, ?_⟩
          have heq : n + (i + 1) = n + 1 + i := by omega
          rw [heq]; exact hp
      · rw [filterIdxFrom, if_neg h0] at h
        rcases ih h with ⟨i, hg, hp⟩
        refine ⟨i + 1, by simpa using hg, ?_⟩
        have heq : n + (i + 1) = n + 1 + i := by omega
        rw [heq]; exact hp

theorem compareRows_str {f : String} {dir : SortDirection} {a b : Record}
    {sa sb : String} (ha : getField a f = .vStr sa) (hb : getField b f = .vStr sb) :
    compareRows f dir a b =
      (if dir = .asc then localeCompare sa sb else -localeCompare sa sb) := by
  simp [compareRows, ha, hb, Value.isNullish]

/-! ### Claim theorems -/

/-- C1: for every data sequence and every sortable column, starting
from the no-sort state, three consecutive sort activations on that
column return the sort state to none and the rendered row sequence
equals the original input sequence; in the none state the displayed
sequence is exactly the input sequence, not re-sorted. -/
theorem sortCycle_closure (columns : List Column) (c : String) (col : Column)
    (data : List Record)
    (hfind : columns.find? (fun x => x.key == c) = some col)
    (hsortable : col.sortable = true) :
    handleSort columns c (handleSort columns c (handleSort columns c ⟨none, none⟩)) =
      ⟨none, none⟩ ∧
    sortedData columns
      (handleSort columns c (handleSort columns c (handleSort columns c ⟨none, none⟩)))
      data = data ∧
    (∀ data2 : List Record, sortedData columns ⟨none, none⟩ data2 = data2) := by
  have h1 : handleSort columns c ⟨none, none⟩ = ⟨some c, some .asc⟩ := by
    simp [handleSort, hfind, hsortable]
  have h2 : handleSort columns c ⟨some c, some .asc⟩ = ⟨some c, some .desc⟩ := by
    simp [handleSort, hfind, hsortable]
  have h3 : handleSort columns c ⟨some c, some .desc⟩ = ⟨none, none⟩ := by
    simp [handleSort, hfind, hsortable]
  rw [h1, h2, h3]
  exact ⟨rfl, rfl, fun _ => rfl⟩

def c1cols : List Column := [⟨"name", "Name", "name", true⟩]

def c1data : List Record :=
  [[("name", Value.vStr "Bob")], [("name", Value.vStr "Ann")]]

/-- Witness for C1 on a concrete sortable column and data sequence. -/
theorem sortCycle_closure_witness :
    handleSort c1cols "name"
      (handleSort c1cols "name" (handleSort c1cols "name" ⟨none, none⟩)) =
      ⟨none, none⟩ ∧
    sortedData c1cols
      (handleSort c1cols "name"
        (handleSort c1cols "name" (handleSort c1cols "name" ⟨none, none⟩)))
      c1data = c1data ∧
    sortedData c1cols ⟨none, none⟩ c1data = c1data :=
  ⟨(sortCycle_closure c1cols "name" ⟨"name", "Name", "name", true⟩ c1data rfl rfl).1,
   (sortCycle_closure c1cols "name" ⟨"name", "Name", "name", true⟩ c1data rfl rfl).2.1,
   (sortCycle_closure c1cols "name" ⟨"name", "Name", "name", true⟩ c1data rfl rfl).2.2
     c1data⟩

/-- C3: for every data sequence and every active sort column, every row
whose sort-field value is null or missing appears after all rows with a
non-null sort-field value in the sorted output, in both ascending and
descending direction. -/
theorem nulls_sort_last (f : String) (dir : SortDirection) (data : List Record) :
    (jsSort (compareRows f dir) data).Pairwise
      (fun a b => (getField a f).isNullish = true → (getField b f).isNullish = true) := by
  refine pairwise_jsSort (P := fun _ => True) ?_ ?_ ?_ (fun x _ => trivial)
  · intro x y z hxy hyz hx
    exact hyz (hxy hx)
  · intro x y _ _ hle hx
    exfalso
    have hc : compareRows f dir x y = 1 := by
      simp [compareRows, hx]
    omega
  · intro x y _ _ hpos hy
    by_contra hx
    have hx' : (getField x f).isNullish = false := by
      revert hx
      cases (getField x f).isNullish <;> simp
    have hc : compareRows f dir x y = -1 := by
      simp [compareRows, hx', hy]
    omega

/-- C8: a click whose target lies inside a checkbox control never
invokes the row-click callback, and a click anywhere else on the row
invokes it with the record and its post-sort index. -/
theorem rowClick_checkbox_guard (columns : List Column) (s : SortState)
    (data : List Record) (record : Record) (index : Nat) :
    handleRowClick true record index = none ∧
    ((sortedData columns s data)[index]? = some record →
      handleRowClick false record index = some (record, index)) :=
  ⟨rfl, fun _ => rfl⟩

/-- Witness for C8 at a concrete rendered row. -/
theorem rowClick_checkbox_guard_witness :
    handleRowClick true [("id", Value.vNum 1)] 0 = none ∧
    handleRowClick false [("id", Value.vNum 1)] 0 =
      some ([("id", Value.vNum 1)], 0) :=
  ⟨(rowClick_checkbox_guard [] ⟨none, none⟩ [[("id", Value.vNum 1)]]
      [("id", Value.vNum 1)] 0).1,
   (rowClick_checkbox_guard [] ⟨none, none⟩ [[("id", Value.vNum 1)]]
      [("id", Value.vNum 1)] 0).2 rfl⟩

/-- C9: the grid renders exactly one of three mutually exclusive
presentation states with this precedence: loading wins regardless of
data; otherwise an empty data sequence shows the configurable
empty-state message (default 'No data available'); otherwise the
populated table renders. -/
theorem renderStates_precedence (loading : Bool) (emptyMessage : Option String)
    (columns : List Column) (s : SortState) (data : List Record) :
    (loading = true →
      renderDataTable loading emptyMessage columns s data = .loadingView) ∧
    (loading = false → data = [] →
      renderDataTable loading emptyMessage columns s data =
        .emptyView (emptyMessage.getD "No data available")) ∧
    (loading = false → data ≠ [] →
      renderDataTable loading emptyMessage columns s data =
        .tableView (sortedData columns s data)) := by
  refine ⟨?_, ?_, ?_⟩
  · rintro rfl
    simp [renderDataTable]
  · rintro rfl rfl
    simp [renderDataTable]
  · rintro rfl hne
    simp [renderDataTable, List.length_eq_zero, hne]

/-- Witness for C9 covering the three concrete render states. -/
theorem renderStates_precedence_witness :
    renderDataTable true none [] ⟨none, none⟩ [[("id", Value.vNum 1)]] =
      .loadingView ∧
    renderDataTable false none [] ⟨none, none⟩ [] =
      .emptyView "No data available" ∧
    renderDataTable false none [] ⟨none, none⟩ [[("id", Value.vNum 1)]] =
      .tableView (sortedData [] ⟨none, none⟩ [[("id", Value.vNum 1)]]) :=
  ⟨(renderStates_precedence true none [] ⟨none, none⟩ [[("id", Value.vNum 1)]]).1 rfl,
   (renderStates_precedence false none [] ⟨none, none⟩ []).2.1 rfl rfl,
   (renderStates_precedence false none [] ⟨none, none⟩ [[("id", Value.vNum 1)]]).2.2
     rfl (List.cons_ne_nil _ _)⟩

theorem set_append_length (l : List α) (v w : α) :
    (l ++ [v]).set l.length w = l ++ [w] := by
  induction l with
  | nil => rfl
  | cons a l ih => simp [List.set, ih]

/-- C10: computing the sorted view never mutates the caller-supplied
data array: the sort operates on a fresh copy, so the array behind
`dataRef` is unchanged by the whole `[...data].sort(comparator)` step,
while the returned reference holds the sorted copy. -/
theorem sort_no_mutation (f : String) (dir : SortDirection) (h : Heap)
    (dataRef : Nat) :
    readArr (sortedDataMem f dir h dataRef).1 dataRef = readArr h dataRef ∧
    readArr (sortedDataMem f dir h dataRef).1 (sortedDataMem f dir h dataRef).2 =
      jsSort (compareRows f dir) (readArr h dataRef) := by
  have harr : (sortedDataMem f dir h dataRef).1.arrays =
      h.arrays ++ [jsSort (compareRows f dir) (readArr h dataRef)] := by
    show ((h.arrays ++ [readArr h dataRef]).set h.arrays.length
        (jsSort (compareRows f dir)
          (((h.arrays ++ [readArr h dataRef])[h.arrays.length]?).getD []))) = _
    rw [List.getElem?_concat_length]
    exact set_append_length _ _ _
  have hcopy : (sortedDataMem f dir h dataRef).2 = h.arrays.length := rfl
  constructor
  · show ((sortedDataMem f dir h dataRef).1.arrays[dataRef]?).getD [] = _
    rw [harr]
    rcases Nat.lt_trichotomy dataRef h.arrays.length with hlt | heq | hgt
    · rw [List.getElem?_append, if_pos hlt]
      rfl
    · have hnone : h.arrays[dataRef]? = none := by
        rw [List.getElem?_eq_none]
        omega
      have hrd : readArr h dataRef = [] := by
        simp [readArr, hnone]
      rw [hrd, heq, List.getElem?_concat_length]
      rfl
    · have h2 : h.arrays[dataRef]? = none := by
        rw [List.getElem?_eq_none]
        omega
      have hrd : readArr h dataRef = [] := by
        simp [readArr, h2]
      rw [hrd]
      rw [List.getElem?_eq_none (by simp; omega)]
      rfl
  · show ((sortedDataMem f dir h dataRef).1.arrays[(sortedDataMem f dir h dataRef).2]?).getD [] = _
    rw [harr, hcopy, List.getElem?_concat_length]
    rfl

def c5cols : List Column := [⟨"", "Name", "name", true⟩]

def c5bob : Record := [("name", Value.vStr "Bob")]

def c5ann : Record := [("name", Value.vStr "Ann")]

/-- C5 counterexample: a sortable column whose `key` is the empty
string.  All sort-field values are strings and the first activation
moves the sort state to ascending on that column, yet the displayed
sequence is the unsorted input (`"Bob"` still before `"Ann"`), because
`sortedData` treats the empty-string key as falsy and skips sorting. -/
theorem stringSort_emptyKey_cex :
    getField c5bob "name" = Value.vStr "Bob" ∧
    getField c5ann "name" = Value.vStr "Ann" ∧
    handleSort c5cols "" ⟨none, none⟩ = ⟨some "", some SortDirection.asc⟩ ∧
    sortedData c5cols ⟨some "", some SortDirection.asc⟩ [c5bob, c5ann] =
      [c5bob, c5ann] ∧
    ¬ (sortedData c5cols ⟨some "", some SortDirection.asc⟩ [c5bob, c5ann]).Pairwise
        (fun a b =>
          localeCompare (getField a "name").toJsString (getField b "name").toJsString ≤ 0) := by
  refine ⟨rfl, rfl, rfl, rfl, ?_⟩
  intro hp
  have hcmp : localeCompare "Bob" "Ann" ≤ 0 :=
    (List.pairwise_cons.mp hp).1 c5ann (by simp)
  have h2 : ("Ann" : String) < "Bob" := by
    rw [String.lt_iff_toList_lt]; decide
  have h1 : ¬ (("Bob" : String) < "Ann") := by
    rw [String.lt_iff_toList_lt]; decide
  have hv : localeCompare "Bob" "Ann" = 1 := by
    simp [localeCompare, h1, h2]
  omega

/-- C5 (amended with a non-empty column key): for every data sequence
whose sort-field values are all strings, the first activation of the
sortable column takes the sort state to ascending and the second to
descending; the ascending view is a locale-ascending permutation of the
data, the descending view a locale-descending one, and the descending
comparison is exactly the sign-reversal of the ascending comparison. -/
theorem stringSort_asc_desc (columns : List Column) (c : String) (col : Column)
    (data : List Record)
    (hfind : columns.find? (fun x => x.key == c) = some col)
    (hsortable : col.sortable = true) (hc : c ≠ "")
    (hstr : ∀ r ∈ data, ∃ s, getField r col.dataIndex = Value.vStr s) :
    handleSort columns c ⟨none, none⟩ = ⟨some c, some .asc⟩ ∧
    handleSort columns c ⟨some c, some .asc⟩ = ⟨some c, some .desc⟩ ∧
    (sortedData columns ⟨some c, some .asc⟩ data).Perm data ∧
    (sortedData columns ⟨some c, some .asc⟩ data).Pairwise
      (fun a b =>
        localeCompare (getField a col.dataIndex).toJsString
          (getField b col.dataIndex).toJsString ≤ 0) ∧
    (sortedData columns ⟨some c, some .desc⟩ data).Perm data ∧
    (sortedData columns ⟨some c, some .desc⟩ data).Pairwise
      (fun a b =>
        0 ≤ localeCompare (getField a col.dataIndex).toJsString
          (getField b col.dataIndex).toJsString) ∧
    (∀ a b, (∃ sa, getField a col.dataIndex = Value.vStr sa) →
      (∃ sb, getField b col.dataIndex = Value.vStr sb) →
      compareRows col.dataIndex .desc a b = -compareRows col.dataIndex .asc a b) := by
  have hsd : ∀ dir, sortedData columns ⟨some c, some dir⟩ data =
      jsSort (compareRows col.dataIndex dir) data := by
    intro dir
    simp [sortedData, hc, hfind]
  refine ⟨?_, ?_, ?_, ?_, ?_, ?_, ?_⟩
  · simp [handleSort, hfind, hsortable]
  · simp [handleSort, hfind, hsortable]
  · rw [hsd]
    exact perm_jsSort _ _
  · rw [hsd]
    refine pairwise_jsSort
      (P := fun r => ∃ s, getField r col.dataIndex = Value.vStr s) ?_ ?_ ?_ hstr
    · intro x y z hxy hyz
      rw [localeCompare_le_iff] at hxy hyz ⊢
      exact le_trans hxy hyz
    · rintro x y ⟨sx, hx⟩ ⟨sy, hy⟩ hle
      rw [compareRows_str hx hy] at hle
      simp at hle
      rw [hx, hy]
      exact hle
    · rintro x y ⟨sx, hx⟩ ⟨sy, hy⟩ hpos
      rw [compareRows_str hx hy] at hpos
      simp at hpos
      rw [hx, hy]
      simp [Value.toJsString]
      rw [localeCompare_le_iff]
      rw [show (0 : Int) < localeCompare sx sy ↔ ¬ localeCompare sx sy ≤ 0 by omega,
        localeCompare_le_iff] at hpos
      exact le_of_not_le hpos
  · rw [hsd]
    exact perm_jsSort _ _
  · rw [hsd]
    refine pairwise_jsSort
      (P := fun r => ∃ s, getField r col.dataIndex = Value.vStr s) ?_ ?_ ?_ hstr
    · intro x y z hxy hyz
      rw [localeCompare_nonneg_iff] at hxy hyz ⊢
      exact le_trans hyz hxy
    · rintro x y ⟨sx, hx⟩ ⟨sy, hy⟩ hle
      rw [compareRows_str hx hy] at hle
      simp at hle
      rw [hx, hy]
      simp [Value.toJsString]
      rw [localeCompare_nonneg_iff]
      exact localeCompare_nonneg_iff.mp hle
    · rintro x y ⟨sx, hx⟩ ⟨sy, hy⟩ hpos
      rw [compareRows_str hx hy] at hpos
      simp at hpos
      rw [hx, hy]
      simp [Value.toJsString]
      rw [localeCompare_nonneg_iff]
      refine le_of_not_le fun hcon => ?_
      have := localeCompare_nonneg_iff.mpr hcon
      omega
  · rintro a b ⟨sa, ha⟩ ⟨sb, hb⟩
    rw [compareRows_str ha hb, compareRows_str ha hb]
    simp

def c5wcols : List Column := [⟨"name", "Name", "name", true⟩]

/-- Witness for the amended C5 on the spec's own example data. -/
theorem stringSort_asc_desc_witness :
    handleSort c5wcols "name" ⟨none, none⟩ = ⟨some "name", some .asc⟩ ∧
    handleSort c5wcols "name" ⟨some "name", some .asc⟩ =
      ⟨some "name", some .desc⟩ ∧
    (sortedData c5wcols ⟨some "name", some .asc⟩ [c5bob, c5ann]).Perm
      [c5bob, c5ann] ∧
    (sortedData c5wcols ⟨some "name", some .asc⟩ [c5bob, c5ann]).Pairwise
      (fun a b =>
        localeCompare (getField a "name").toJsString
          (getField b "name").toJsString ≤ 0) ∧
    (sortedData c5wcols ⟨some "name", some .desc⟩ [c5bob, c5ann]).Perm
      [c5bob, c5ann] ∧
    (sortedData c5wcols ⟨some "name", some .desc⟩ [c5bob, c5ann]).Pairwise
      (fun a b =>
        0 ≤ localeCompare (getField a "name").toJsString
          (getField b "name").toJsString) ∧
    compareRows "name" .desc c5bob c5ann = -compareRows "name" .asc c5bob c5ann := by
  have hstr : ∀ r ∈ [c5bob, c5ann], ∃ s, getField r "name" = Value.vStr s := by
    intro r hr
    rcases List.mem_cons.mp hr with rfl | hr
    · exact ⟨"Bob", rfl⟩
    · rcases List.mem_cons.mp hr with rfl | hr
      · exact ⟨"Ann", rfl⟩
      · simp at hr
  have h := stringSort_asc_desc c5wcols "name" ⟨"name", "Name", "name", true⟩
    [c5bob, c5ann] rfl rfl (by decide) hstr
  exact ⟨h.1, h.2.1, h.2.2.1, h.2.2.2.1, h.2.2.2.2.1, h.2.2.2.2.2.1,
    h.2.2.2.2.2.2 c5bob c5ann ⟨"Bob", rfl⟩ ⟨"Ann", rfl⟩⟩

def c2row : Record := [("id", Value.vNum 1)]

/-- C2 counterexample: two visible rows share the row key `1`.  With
selection `{1}` every visible row is selected, yet toggling the header
checkbox does not clear the selection (it re-selects all rows and
reports the full row list), because the code compares the selection
set's size with the row count and `1 ≠ 2`.  Likewise, select-all from
the empty selection followed by a second toggle does not yield the
empty selection. -/
theorem selectAll_duplicateKeys_cex :
    rowKeys (.attr "id") [c2row, c2row] =
      [RKey.ofValue (Value.vNum 1), RKey.ofValue (Value.vNum 1)] ∧
    RKey.ofValue (Value.vNum 1) ∈ ({RKey.ofValue (Value.vNum 1)} : Finset RKey) ∧
    handleSelectAll (.attr "id") {RKey.ofValue (Value.vNum 1)} [c2row, c2row] ≠
      (∅, []) ∧
    handleSelectAll (.attr "id")
      (handleSelectAll (.attr "id") ∅ [c2row, c2row]).1 [c2row, c2row] ≠
      (∅, []) := by
  refine ⟨by decide, by decide, by decide, by decide⟩

/-- C2 (amended): the header toggle clears the selection exactly when
the selection's size equals the number of visible rows, and otherwise
replaces the selection with the keys of every visible row, reporting
the full visible sequence; when the row keys are unique, selecting all
rows and then toggling again yields the empty selection (and an empty
report). -/
theorem selectAll_toggle_spec (rk : RowKeyProp) (sel : Finset RKey)
    (sorted : List Record) :
    (sel.card = sorted.length → handleSelectAll rk sel sorted = (∅, [])) ∧
    (sel.card ≠ sorted.length →
      handleSelectAll rk sel sorted = ((rowKeys rk sorted).toFinset, sorted) ∧
      ∀ k ∈ rowKeys rk sorted, k ∈ (handleSelectAll rk sel sorted).1) ∧
    ((rowKeys rk sorted).Nodup → sel.card ≠ sorted.length →
      handleSelectAll rk (handleSelectAll rk sel sorted).1 sorted = (∅, [])) := by
  refine ⟨?_, ?_, ?_⟩
  · intro hcard
    simp [handleSelectAll, hcard]
  · intro hcard
    refine ⟨by simp [handleSelectAll, hcard], ?_⟩
    intro k hk
    rw [handleSelectAll, if_neg hcard]
    exact List.mem_toFinset.mpr hk
  · intro hnd hcard
    have h1 : (handleSelectAll rk sel sorted).1 = (rowKeys rk sorted).toFinset := by
      simp [handleSelectAll, hcard]
    rw [h1]
    have hc : (rowKeys rk sorted).toFinset.card = sorted.length := by
      rw [List.toFinset_card_of_nodup hnd]
      exact rowKeysFrom_length rk sorted 0
    simp [handleSelectAll, hc]

/-- Witness for the amended C2: one row with key `1`; select-all then
toggle yields the empty selection and an empty report. -/
theorem selectAll_toggle_spec_witness :
    handleSelectAll (.attr "id")
      (handleSelectAll (.attr "id") ∅ [c2row]).1 [c2row] = (∅, []) :=
  (selectAll_toggle_spec (.attr "id") ∅ [c2row]).2.2 (by decide) (by decide)

/-- The updated selection set built by `handleRowSelect` (the
`newSelectedRows` local of the source). -/
def newSelectedRowsOf (rk : RowKeyProp) (sel : Finset RKey) (record : Record)
    (index : Nat) : Finset RKey :=
  if getRowKey rk record index ∈ sel then sel.erase (getRowKey rk record index)
  else insert (getRowKey rk record index) sel

theorem handleRowSelect_eq (rk : RowKeyProp) (sel : Finset RKey)
    (sorted : List Record) (record : Record) (index : Nat) :
    handleRowSelect rk sel sorted record index =
      (newSelectedRowsOf rk sel record index,
        filterIdxFrom
          (fun item idx =>
            decide (getRowKey rk item idx ∈ newSelectedRowsOf rk sel record index))
          sorted 0) := rfl

/-- C4: with unique row keys, toggling a row's checkbox flips that
row's membership in the selection set, and the owner callback receives
the full list of currently-selected records in current display order (a
sublist of the post-sort sequence holding exactly the rows whose key is
selected); selecting the first row from an empty selection reports a
list containing exactly that one record. -/
theorem rowSelect_toggle_reports (rk : RowKeyProp) (sel : Finset RKey)
    (sorted : List Record) (record : Record) (index : Nat)
    (hnd : (rowKeys rk sorted).Nodup) :
    (getRowKey rk record index ∈ (handleRowSelect rk sel sorted record index).1 ↔
      getRowKey rk record index ∉ sel) ∧
    ((handleRowSelect rk sel sorted record index).2).Sublist sorted ∧
    (∀ i r, sorted[i]? = some r →
      getRowKey rk r i ∈ (handleRowSelect rk sel sorted record index).1 →
      r ∈ (handleRowSelect rk sel sorted record index).2) ∧
    (∀ r ∈ (handleRowSelect rk sel sorted record index).2, ∃ i,
      sorted[i]? = some r ∧
      getRowKey rk r i ∈ (handleRowSelect rk sel sorted record index).1) ∧
    (sel = ∅ → index = 0 → ∀ r0 rest, sorted = r0 :: rest → record = r0 →
      (handleRowSelect rk sel sorted record index).2 = [record]) := by
  rw [handleRowSelect_eq]
  dsimp only
  refine ⟨?_, filterIdxFrom_sublist _ _ _, ?_, ?_, ?_⟩
  · by_cases hm : getRowKey rk record index ∈ sel
    · simp [newSelectedRowsOf, hm]
    · simp [newSelectedRowsOf, hm]
  · intro i r hg hmem
    refine mem_filterIdxFrom_of_getIdx hg ?_
    rw [Nat.zero_add]
    exact decide_eq_true hmem
  · intro r hr
    rcases exists_of_mem_filterIdxFrom hr with ⟨i, hg, hp⟩
    refine ⟨i, hg, ?_⟩
    have hp' := of_decide_eq_true hp
    rwa [Nat.zero_add] at hp'
  · rintro rfl rfl r0 rest rfl rfl
    have hnot : getRowKey rk record 0 ∉ (∅ : Finset RKey) := Finset.not_mem_empty _
    have hns : newSelectedRowsOf rk ∅ record 0 = {getRowKey rk record 0} := by
      rw [newSelectedRowsOf, if_neg hnot]
      rfl
    simp only [hns]
    rw [filterIdxFrom, if_pos (decide_eq_true (Finset.mem_singleton_self _))]
    simp only [Nat.zero_add]
    refine congrArg (List.cons record) ?_
    refine filterIdxFrom_eq_nil ?_
    intro i r hg
    refine decide_eq_false ?_
    rw [Finset.mem_singleton]
    intro heq
    have hmem := getIdx_mem_rowKeysFrom rk rest 1 i r hg
    rw [heq] at hmem
    have hnd' : (getRowKey rk record 0 :: rowKeysFrom rk rest 1).Nodup := hnd
    exact (List.nodup_cons.mp hnd').1 hmem

def c4r1 : Record := [("id", Value.vNum 1)]

def c4r2 : Record := [("id", Value.vNum 2)]

/-- Witness for C4: with unique keys 1 and 2, selecting the first row
from an empty selection reports exactly that record. -/
theorem rowSelect_toggle_reports_witness :
    (handleRowSelect (.attr "id") ∅ [c4r1, c4r2] c4r1 0).2 = [c4r1] :=
  (rowSelect_toggle_reports (.attr "id") ∅ [c4r1, c4r2] c4r1 0
      (by decide)).2.2.2.2 rfl rfl c4r1 [c4r2] rfl rfl

theorem displayedValue_initState (p : InputFieldProps) :
    displayedValue p (initState p) = (initState p).inputValue := by
  rcases hv : p.value with _ | v <;> simp [displayedValue, initState, hv]

theorem clearButtonVisible_eq (p : InputFieldProps) (st : InputFieldState) :
    clearButtonVisible p st =
      (p.showClearButton && st.inputValue != "" && !p.loading) := by
  cases hs : p.showClearButton <;> cases hl : p.loading <;>
    cases hv : (st.inputValue != "") <;>
      simp [clearButtonVisible, iconsContainerVisible, hs, hl, hv]

/-- C6: the clear affordance is rendered exactly when the clear feature
is enabled, the current value is non-empty, and the loading flag is
off; activating it sets the value to the empty string and reports that
change to the owner through the same change callback as a normal
edit. -/
theorem clearButton_spec (p : InputFieldProps) :
    (clearButtonVisible p (initState p) = true ↔
      (p.showClearButton = true ∧ displayedValue p (initState p) ≠ "" ∧
        p.loading = false)) ∧
    (∀ st, p.value = none →
      (clearButtonVisible p st = true ↔
        (p.showClearButton = true ∧ displayedValue p st ≠ "" ∧
          p.loading = false))) ∧
    (∀ st, handleClear st = handleChange st "") := by
  refine ⟨?_, ?_, fun _ => rfl⟩
  · rw [clearButtonVisible_eq, displayedValue_initState]
    simp [Bool.and_eq_true, bne_iff_ne, Bool.not_eq_true', and_assoc]
  · intro st hv
    rw [clearButtonVisible_eq]
    simp [displayedValue, hv, Bool.and_eq_true, bne_iff_ne, Bool.not_eq_true',
      and_assoc]

/-- Witness for C6: `showClearButton = true`, `value = "x"`, not
loading renders the clear affordance, and clearing equals a normal edit
to the empty string. -/
theorem clearButton_spec_witness :
    clearButtonVisible ⟨some "x", true, .text, false, false⟩
      (initState ⟨some "x", true, .text, false, false⟩) = true ∧
    handleClear ⟨false, "x"⟩ = handleChange ⟨false, "x"⟩ "" :=
  ⟨(clearButton_spec ⟨some "x", true, .text, false, false⟩).1.mpr
      ⟨rfl, by decide, rfl⟩,
   (clearButton_spec ⟨some "x", true, .text, false, false⟩).2.2 ⟨false, "x"⟩⟩

/-- C7: for a password Field Control, the reveal toggle is rendered
exactly when the loading flag is off; the input is masked by default,
each toggle activation flips the rendered input type between masked and
plain, and toggling never alters the current value. -/
theorem passwordToggle_spec (p : InputFieldProps) (hp : p.type = .password) :
    (∀ st, passwordToggleVisible p st = !p.loading) ∧
    actualType p (initState p) = .password ∧
    (∀ st, actualType p (togglePasswordVisibility st) =
      (if actualType p st = .password then InputType.text else .password)) ∧
    (∀ st, (togglePasswordVisibility st).inputValue = st.inputValue) := by
  have hpw : isPassword p = true := by
    simp [isPassword, hp]
  refine ⟨?_, ?_, ?_, fun _ => rfl⟩
  · intro st
    cases hl : p.loading <;>
      simp [passwordToggleVisible, iconsContainerVisible, hpw, hl]
  · simp [actualType, hpw, initState]
  · intro st
    cases hs : st.showPassword <;>
      simp [actualType, hpw, togglePasswordVisibility, hs]

/-- Witness for C7 on a concrete password field: toggle visible while
not loading, masked by default, one toggle renders plain text, value
untouched. -/
theorem passwordToggle_spec_witness :
    passwordToggleVisible ⟨none, false, .password, false, false⟩ ⟨false, "s"⟩ =
      true ∧
    actualType ⟨none, false, .password, false, false⟩
      (initState ⟨none, false, .password, false, false⟩) = .password ∧
    actualType ⟨none, false, .password, false, false⟩
      (togglePasswordVisibility ⟨false, "s"⟩) = .text ∧
    (togglePasswordVisibility ⟨false, "s"⟩).inputValue = "s" :=
  ⟨(passwordToggle_spec ⟨none, false, .password, false, false⟩ rfl).1 ⟨false, "s"⟩,
   (passwordToggle_spec ⟨none, false, .password, false, false⟩ rfl).2.1,
   (passwordToggle_spec ⟨none, false, .password, false, false⟩ rfl).2.2.1 ⟨false, "s"⟩,
   (passwordToggle_spec ⟨none, false, .password, false, false⟩ rfl).2.2.2 ⟨false, "s"⟩⟩

end Uzence
